import Mathlib

/-!
Verification of the command-authorization and execution pipeline of the
Windows-Command-Line-MCP-Server repository, as a shallow embedding in Lean.

Command strings are modelled as `List Char` (JS strings are sequences of
code units; all commands involved here are plain ASCII text).  Each Lean
definition below is translated from a named function of the source:

* `validateCommand`        from `SecurityManager.validateCommand` (src/securityManager.ts)
* `evaluateBlockDangerous` from the `dangerousPatterns` check of the
  `execute_command` handler (index.ts, lines 607-629)
* `translate` and helpers  from the command-translation part of the
  platform helper `executeCommand` (index.ts, lines 95-142)
* `executeCommandRun`      from `SystemInfoManager.executeCommand`
* `executePowerShellRun`   from `SystemInfoManager.executePowerShell`
* the `…Events` functions  record, per operation of `SystemInfoManager`,
  the guard invocations and child-process spawns it performs, in order.
-/

namespace WinCmd

/-- Command strings are lists of characters. -/
abbrev Str := List Char

/-- Shorthand turning a Lean string literal into a `List Char`. -/
def cs (s : String) : Str := s.toList

/-- `String.prototype.toLowerCase`, character-wise. -/
def lower (s : Str) : Str := s.map Char.toLower

/-- The single-quote character (U+0027), used in the reason messages. -/
def sq : Char := Char.ofNat 39

/-! ## AllowlistGuard: `SecurityManager.validateCommand` -/

/-- The result object of `SecurityManager.validateCommand`:
`{ isValid: boolean; reason?: string }` (the reason is empty when valid). -/
structure ValidationResult where
  isValid : Bool
  reason : Str
deriving DecidableEq

/-- `command.split(' ')[0].toLowerCase()` — the base command of the source:
the characters before the first space character (U+0020), lower-cased. -/
def baseToken (command : Str) : Str :=
  (command.takeWhile (fun c => c ≠ ' ')).map Char.toLower

/-- `SecurityManager.validateCommand` (src/securityManager.ts):
the base command must equal some allowed command, compared after
lower-casing both sides. -/
def validateCommand (allowedCommands : List Str) (command : Str) : ValidationResult :=
  let commandBase := baseToken command
  if allowedCommands.any (fun cmd => commandBase = lower cmd) then
    { isValid := true, reason := [] }
  else
    { isValid := false
      reason := cs "Command " ++ [sq] ++ commandBase ++ [sq] ++
        cs " is not in the allowed list" }

/-- `DEFAULT_ALLOWED_COMMANDS` from src/utils.ts. -/
def DEFAULT_ALLOWED_COMMANDS : List Str :=
  [cs "dir", cs "echo", cs "whoami", cs "hostname", cs "systeminfo", cs "ver",
   cs "ipconfig", cs "ping", cs "tasklist", cs "time", cs "date", cs "type",
   cs "find", cs "findstr", cs "where", cs "help", cs "netstat", cs "sc",
   cs "schtasks", cs "powershell", cs "powershell.exe",
   cs "npm", cs "yarn", cs "node", cs "git", cs "code",
   cs "python", cs "pip", cs "nvm", cs "pnpm"]

/-- Modelled from the spec: the spec defines the base token as "the substring
up to the first whitespace, lower-cased".  This refinement-comparison
definition follows the spec words (any whitespace character ends the token),
to be compared with `baseToken`, which follows the source (`split(' ')`). -/
def specBaseToken (command : Str) : Str :=
  (command.takeWhile (fun c => ¬ c.isWhitespace)).map Char.toLower

/-! ## Block-dangerous-only mode: the `execute_command` handler of index.ts -/

/-- The guard's decision, per the spec contract
`evaluate(command, policy) -> Decision(Allow | Deny(reason))`. -/
inductive Decision
  | allow
  | deny (reason : Str)
deriving DecidableEq

/-- `dangerousPatterns` of the `execute_command` handler (index.ts). -/
def dangerousPatterns : List Str :=
  [cs "net user", cs "net localgroup", cs "netsh", cs "format", cs "rd /s",
   cs "rmdir /s", cs "del /f", cs "reg delete", cs "shutdown", cs "taskkill",
   cs "sc delete", cs "bcdedit", cs "cacls", cs "icacls", cs "takeown",
   cs "diskpart", cs "cipher /w", cs "schtasks /create", cs "rm -rf",
   cs "sudo", cs "chmod 777", cs "chown", cs "passwd", cs "mkfs",
   cs "dd if=/dev/zero"]

/-- `haystack.includes(needle)` of JS: `needle` occurs contiguously in
`haystack`. -/
def jsIncludes (haystack needle : Str) : Bool :=
  decide (needle <:+: haystack)

/-- The denial message of the `execute_command` handler. -/
def dangerousMsg : Str :=
  cs "Command contains potentially dangerous operations and cannot be executed."

/-- The security check of the `execute_command` handler (index.ts 607-629):
deny when the lower-cased full command contains any pattern (lower-cased)
as a substring; otherwise the command proceeds to execution. -/
def evaluateBlockDangerous (blocked : List Str) (command : Str) : Decision :=
  let commandLower := lower command
  if blocked.any (fun pattern => jsIncludes commandLower (lower pattern)) then
    .deny dangerousMsg
  else
    .allow

/-! ## PlatformAdapter: the translation part of `executeCommand` (index.ts)

The source rewrites the command with two wrapper-stripping regex
replacements and then a loop over `commandMappings`, where a rule whose
target is `null` throws when its token occurs anywhere in the command
(`includes`), and a rule with a target replaces the first regex match of
`(^|&&|\|\|)\s*token\b` (case-insensitive) with `$1 target`.  Each
definition below implements one of those pieces.  The `\s*`/`\s+` parts are
implemented by maximal munch, which agrees with the regex because in every
pattern the character required after the whitespace is never itself a
whitespace character; `\s` is modelled by the ASCII whitespace characters
(the commands involved contain no Unicode spaces). -/

/-- JS regex `\s` on the ASCII range. -/
def jsWs (c : Char) : Bool :=
  c == ' ' || c == '\t' || c == '\n' || c == '\r' ||
  c == Char.ofNat 11 || c == Char.ofNat 12

/-- JS regex `\w`: ASCII letters, digits and underscore. -/
def isWordChar (c : Char) : Bool :=
  c.isAlpha || c.isDigit || c == '_'

/-- Match the literal characters of `tok` case-insensitively at the head of
`s`; on success return the rest of `s`. -/
def matchCI : Str → Str → Option Str
  | [], s => some s
  | _ :: _, [] => none
  | t :: ts, c :: rest =>
    if t.toLower == c.toLower then matchCI ts rest else none

/-- `\s*`: drop the maximal whitespace run. -/
def dropWs (s : Str) : Str := s.dropWhile jsWs

/-- `\s+`: at least one whitespace character, then the maximal run. -/
def matchPlusWs : Str → Option Str
  | c :: rest => if jsWs c then some (dropWs rest) else none
  | [] => none

/-- Match `\s*tok\b` at the head of `s` (for a `tok` that starts with a
non-whitespace character and ends with a word character, as every mapped
token does); on success return the rest of `s` after the token. -/
def matchSpTok (tok : Str) (s : Str) : Option Str :=
  match matchCI tok (dropWs s) with
  | none => none
  | some rest =>
    match rest with
    | [] => some []
    | c :: _ => if isWordChar c then none else some rest

/-- Scan for `(&&|\|\|)\s*tok\b` left to right; at the first match, return
the string rewritten to `prefix ++ separator ++ " " ++ target ++ rest`
(the regex replacement `$1 target`). -/
def scanSep (tok target : Str) : Str → Option Str
  | [] => none
  | [_] => none
  | a :: b :: rest =>
    if (a == '&' && b == '&') || (a == '|' && b == '|') then
      match matchSpTok tok rest with
      | some r => some (a :: b :: ' ' :: (target ++ r))
      | none =>
        match scanSep tok target (b :: rest) with
        | some r => some (a :: r)
        | none => none
    else
      match scanSep tok target (b :: rest) with
      | some r => some (a :: r)
      | none => none

/-- `modifiedCmd.replace(new RegExp("(^|&&|\\|\\|)\\s*" ++ tok ++ "\\b", "i"),
"$1 " ++ target)`: the `^` alternative is tried at position 0 first, then the
separator alternatives at every position left to right.  Returns `none` when
the regex does not match (the source then keeps the string unchanged). -/
def replaceRule (tok target : Str) (s : Str) : Option Str :=
  match matchSpTok tok s with
  | some r => some (' ' :: (target ++ r))
  | none => scanSep tok target s

/-- Match `cmd\.exe\s+\/c\s+` at the head of `s`; on success return the rest
after the match (the source replaces the match with the empty string). -/
def matchCmdExeAt (s : Str) : Option Str :=
  match matchCI (cs "cmd.exe") s with
  | none => none
  | some r1 =>
    match matchPlusWs r1 with
    | none => none
    | some r2 =>
      match matchCI (cs "/c") r2 with
      | none => none
      | some r3 => matchPlusWs r3

/-- Match `powershell\.exe\s+-Command\s+("|')` at the head of `s`; on success
return the rest after the match (the quote is part of the match and is
removed with it). -/
def matchPsCmdAt (s : Str) : Option Str :=
  match matchCI (cs "powershell.exe") s with
  | none => none
  | some r1 =>
    match matchPlusWs r1 with
    | none => none
    | some r2 =>
      match matchCI (cs "-command") r2 with
      | none => none
      | some r3 =>
        match matchPlusWs r3 with
        | none => none
        | some r4 =>
          match r4 with
          | c :: rest => if c == '"' || c == sq then some rest else none
          | [] => none

/-- Remove the first (leftmost) match of `matcher` from the string; the
string is unchanged when there is no match. -/
def stripFirst (matcher : Str → Option Str) : Str → Str
  | [] => []
  | c :: rest =>
    match matcher (c :: rest) with
    | some r => r
    | none => c :: stripFirst matcher rest

/-- `modifiedCmd.replace(/("|')$/, '')`: drop a trailing quote. -/
def stripTrailingQuote (s : Str) : Str :=
  match s.getLast? with
  | some c => if c == '"' || c == sq then s.dropLast else s
  | none => s

/-- The `commandMappings` table of index.ts, in source order; `none` is the
source's `null` ("no safe equivalent; reject"). -/
def commandMappings : List (Str × Option Str) :=
  [(cs "dir", some (cs "ls -la")),
   (cs "type", some (cs "cat")),
   (cs "copy", some (cs "cp")),
   (cs "move", some (cs "mv")),
   (cs "del", some (cs "rm")),
   (cs "md", some (cs "mkdir")),
   (cs "rd", some (cs "rmdir")),
   (cs "echo", some (cs "echo")),
   (cs "cls", some (cs "clear")),
   (cs "ipconfig", some (cs "ip addr")),
   (cs "tasklist", some (cs "ps aux")),
   (cs "systeminfo", some (cs "uname -a && lscpu && free -h")),
   (cs "net user", none),
   (cs "reg", none)]

/-- The rejection message thrown for a `null` rule. -/
def notSupportedMsg (tok : Str) : Str :=
  cs "The command " ++ [sq] ++ tok ++ [sq] ++
    cs " is not supported in Linux environment"

/-- The translation loop of index.ts: for a `null` rule, throw when the
token occurs anywhere in the (lower-cased) command; for a non-null rule,
substitute the first boundary match and continue with the updated string.
(When a `null` rule's token does not occur at all, the source's subsequent
regex replace cannot match either, so the string is unchanged.) -/
def applyRules : List (Str × Option Str) → Str → Except Str Str
  | [], s => .ok s
  | (tok, none) :: rest, s =>
    if jsIncludes (lower s) (lower tok) then .error (notSupportedMsg tok)
    else applyRules rest s
  | (tok, some target) :: rest, s =>
    applyRules rest ((replaceRule tok target s).getD s)

/-- Only the substitutions of the translation loop (the `null` rules checked
by `applyRules` rewrite nothing); used to state which string the `null`
rules are evaluated against. -/
def applySubsts : List (Str × Option Str) → Str → Str
  | [], s => s
  | (_, none) :: rest, s => applySubsts rest s
  | (tok, some target) :: rest, s =>
    applySubsts rest ((replaceRule tok target s).getD s)

/-- The wrapper-stripping steps of index.ts (lines 115-125): remove a
`cmd.exe /c` prefix, remove a `powershell.exe -Command "`-style prefix, and
when the string changed, drop a trailing quote. -/
def stripWrappers (command : Str) : Str :=
  let m1 := stripFirst matchCmdExeAt command
  let m2 := stripFirst matchPsCmdAt m1
  if m2 ≠ command then stripTrailingQuote m2 else m2

/-- The spec contract
`translate(command, hostPlatform) -> TranslationOutcome`. -/
inductive TranslationOutcome
  | unchanged
  | translated (command : Str)
  | rejected (reason : Str)
deriving DecidableEq

/-- The whole translation stage of `executeCommand` (index.ts 95-142) on a
foreign platform: strip wrappers, run the rule loop; a thrown rule gives
`rejected`, an unmodified string gives `unchanged`, otherwise `translated`
with the rewritten command (which the source then executes). -/
def translate (command : Str) : TranslationOutcome :=
  match applyRules commandMappings (stripWrappers command) with
  | .error reason => .rejected reason
  | .ok final => if final = command then .unchanged else .translated final

/-- The string produced by a translation: the rewritten command when the
outcome is `translated`, the original command otherwise. -/
def translationOutput (command : Str) : Str :=
  match translate command with
  | .translated s => s
  | _ => command

/-- Modelled from the spec: "the source token appears at the start of the
command or immediately following a command-chaining separator" — the claim's
boundary-only matching notion, expressed with the same matcher as the rules
(the target does not influence whether a match exists). -/
def ruleTokenAtBoundary (tok : Str) (s : Str) : Bool :=
  (replaceRule tok [] s).isSome

/-! ## Executor: `SystemInfoManager.executeCommand`

`execAsync` either resolves with `{stdout, stderr}` or rejects with an error
whose `message` the handler reads.  A rejection covers a spawn failure, a
non-zero exit and a timeout kill; the `timedOut` flag below records whether
the underlying cause was the timeout — the source never reads anything but
`error.message`, so the flag is invisible to it by construction. -/

/-- The possible completions of one `execAsync` call. -/
inductive ExecOutcome
  | completed (stdout stderr : Str)
  | failed (message : Str) (timedOut : Bool)
deriving DecidableEq

deriving instance DecidableEq for Except

/-- What one call of `SystemInfoManager.executeCommand` produces: the value
returned to (or the error thrown at) the caller, and the `console.error`
lines written to the server's own log. -/
structure CommandRunResult where
  result : Except Str Str
  consoleLog : List Str
deriving DecidableEq

/-- `SystemInfoManager.executeCommand` (systemInfoManager.ts 156-178):
validate the command; on rejection throw the validation reason; otherwise
run the command, log a non-empty stderr to the console, and return stdout
(or a placeholder when stdout is empty); any `execAsync` rejection is
re-thrown as `Command execution failed: <message>`. -/
def executeCommandRun (allowedCommands : List Str) (command : Str)
    (outcome : ExecOutcome) : CommandRunResult :=
  let validation := validateCommand allowedCommands command
  if validation.isValid = false then
    { result := .error validation.reason, consoleLog := [] }
  else
    match outcome with
    | .completed stdout stderr =>
      { result := .ok (if stdout = [] then
          cs "Command executed successfully (no output)" else stdout)
        consoleLog := if stderr = [] then [] else
          [cs "Command stderr: " ++ stderr] }
    | .failed message _ =>
      { result := .error (cs "Command execution failed: " ++ message)
        consoleLog := [] }

/-! ## Executor, script-style: `SystemInfoManager.executePowerShell` -/

/-- The fates of the body of `executePowerShell` after validation:
`writeFileSync` can throw, and otherwise the `execAsync` call completes or
rejects (spawn failure / non-zero exit / timeout). -/
inductive PSOutcome
  | writeFailed (message : Str)
  | completed (stdout stderr : Str)
  | failed (message : Str) (timedOut : Bool)
deriving DecidableEq

/-- The temporary script path
`path.join(os.tmpdir(), "ps_script_" + Date.now() + ".ps1")`; `timestamp`
is the decimal rendering of `Date.now()`. -/
def tempScriptPath (tmpdir timestamp : Str) : Str :=
  tmpdir ++ ((cs "/ps_script_") ++ (timestamp ++ cs ".ps1"))

/-- The filesystem, modelled as an association list of existing files:
`(path, content)` pairs. -/
abbrev FileSystem := List (Str × Str)

/-- `fs.unlinkSync(p)`: removes the file at `p` (a no-op that the source
catches when `p` is absent). -/
def removeFile (p : Str) (fileSystem : FileSystem) : FileSystem :=
  fileSystem.filter (fun q => q.1 ≠ p)

/-- `fs.writeFileSync(p, content)`: creates (or overwrites) the file. -/
def writeFile (p content : Str) (fileSystem : FileSystem) : FileSystem :=
  (p, content) :: removeFile p fileSystem

/-- What one call of `SystemInfoManager.executePowerShell` produces. -/
structure PSRun where
  result : Except Str Str
  deniedByPolicy : Bool
  fileSystem : FileSystem
deriving DecidableEq

/-- `SystemInfoManager.executePowerShell` (systemInfoManager.ts 187-223):
validate the fixed token `powershell` (the script content is never passed to
the guard); on rejection throw before touching the filesystem.  Otherwise
write the script body to the temporary file, invoke PowerShell on it, and in
the `finally` block unconditionally unlink the temporary file (swallowing an
unlink failure).  Exec rejections are re-thrown as
`PowerShell execution failed: <message>`. -/
def executePowerShellRun (allowedCommands : List Str) (script : Str)
    (tmpdir timestamp : Str) (outcome : PSOutcome)
    (fileSystem : FileSystem) : PSRun :=
  let validation := validateCommand allowedCommands (cs "powershell")
  if validation.isValid = false then
    { result := .error validation.reason, deniedByPolicy := true
      fileSystem := fileSystem }
  else
    let p := tempScriptPath tmpdir timestamp
    match outcome with
    | .writeFailed message =>
      -- writeFileSync threw: no file was created; the finally block's
      -- unlink still runs (and its failure is caught and only logged)
      { result := .error (cs "PowerShell execution failed: " ++ message)
        deniedByPolicy := false
        fileSystem := removeFile p fileSystem }
    | .completed stdout _ =>
      { result := .ok (if stdout = [] then
          cs "PowerShell script executed successfully (no output)" else stdout)
        deniedByPolicy := false
        fileSystem := removeFile p (writeFile p script fileSystem) }
    | .failed message _ =>
      { result := .error (cs "PowerShell execution failed: " ++ message)
        deniedByPolicy := false
        fileSystem := removeFile p (writeFile p script fileSystem) }

/-! ## Guard-before-spawn traces of the `SystemInfoManager` operations

Each operation is summarised by the ordered list of the guard invocations
(`validated command result`) and child-process spawns (`spawned command`) it
performs, read off its source body. -/

/-- One observable step of an operation. -/
inductive Event
  | validated (command : Str) (allowedRes : Bool)
  | spawned (command : Str)
deriving DecidableEq

/-- `guardedTrace seenAllow events` holds when every `spawned` event is
preceded by some `validated` event that returned Allow. -/
def guardedTrace : Bool → List Event → Bool
  | _, [] => true
  | seenAllow, .validated _ ok :: rest => guardedTrace (seenAllow || ok) rest
  | seenAllow, .spawned _ :: rest => seenAllow && guardedTrace seenAllow rest

/-- `true` for a `spawned` event. -/
def isSpawnEvent : Event → Bool
  | .spawned _ => true
  | .validated _ _ => false

/-- Events of `SystemInfoManager.executeCommand`: validate, then spawn the
requested command only when validation passed. -/
def executeCommandEvents (allowedCommands : List Str) (command : Str) :
    List Event :=
  let v := validateCommand allowedCommands command
  .validated command v.isValid ::
    (if v.isValid then [.spawned command] else [])

/-- Events of `SystemInfoManager.executePowerShell`: validate the constant
token `powershell`, then (when allowed and the script file was written)
spawn the interpreter against the temporary file. -/
def executePowerShellEvents (allowedCommands : List Str)
    (tmpdir timestamp : Str) (outcome : PSOutcome) : List Event :=
  let v := validateCommand allowedCommands (cs "powershell")
  .validated (cs "powershell") v.isValid ::
    (if v.isValid then
      match outcome with
      | .writeFailed _ => []
      | _ => [.spawned (cs "powershell -ExecutionPolicy Bypass -File \"" ++
          tempScriptPath tmpdir timestamp ++ cs "\"")]
    else [])

/-- Events of `SystemInfoManager.getSystemInfo`: the `full` detail level
spawns `systeminfo`; the basic level reads `os.*` APIs and spawns nothing.
No guard invocation appears in the source. -/
def getSystemInfoEvents (detail : Str) : List Event :=
  if detail = cs "full" then [.spawned (cs "systeminfo")] else []

/-- Events of `SystemInfoManager.getNetworkInfo` (systemInfoManager.ts
61-75): spawns an `ipconfig` command with no guard invocation. -/
def getNetworkInfoEvents (networkInterface : Option Str) : List Event :=
  match networkInterface with
  | some i =>
    [.spawned (cs "ipconfig /all | find \"" ++ i ++ cs "\" /i")]
  | none => [.spawned (cs "ipconfig")]

/-- Events of `SystemInfoManager.listRunningProcesses` (systemInfoManager.ts
82-93): spawns a `tasklist` command with no guard invocation. -/
def listRunningProcessesEvents (filter : Option Str) : List Event :=
  match filter with
  | some f =>
    [.spawned (cs "tasklist | findstr /i \"" ++ f ++ cs "\"")]
  | none => [.spawned (cs "tasklist")]

/-- Events of `SystemInfoManager.getServiceInfo`: spawns an `sc query`
command with no guard invocation (invalid action/name combinations throw
before spawning). -/
def getServiceInfoEvents (action : Str) (serviceName : Option Str) :
    List Event :=
  if action = cs "query" then
    match serviceName with
    | some n => [.spawned (cs "sc query \"" ++ n ++ cs "\"")]
    | none => [.spawned (cs "sc query state= all")]
  else if action = cs "status" then
    match serviceName with
    | some n => [.spawned (cs "sc query \"" ++ n ++ cs "\"")]
    | none => []
  else []

/-- Events of `SystemInfoManager.getScheduledTasks`: spawns a `schtasks`
command with no guard invocation (invalid combinations throw before
spawning). -/
def getScheduledTasksEvents (action : Str) (taskName : Option Str) :
    List Event :=
  if action = cs "query" then
    match taskName with
    | some n =>
      [.spawned (cs "schtasks /query /tn \"" ++ n ++ cs "\" /fo list /v")]
    | none => [.spawned (cs "schtasks /query /fo list /v")]
  else if action = cs "status" then
    match taskName with
    | some n =>
      [.spawned (cs "schtasks /query /tn \"" ++ n ++ cs "\" /fo list /v")]
    | none => []
  else []

/-- Whether the head of the string is absent or not a word character (the
`\b` condition after a token that ends in a word character). -/
def headNotWord : Str → Bool
  | [] => true
  | c :: _ => !(isWordChar c)

/-- Whether the string is nonempty and opens with a non-whitespace
character (true of the source token of every mapping rule). -/
def headNotWs : Str → Bool
  | [] => false
  | c :: _ => !(jsWs c)

/-! ## Theorems -/

/-- A token always matches itself (case-insensitive comparison is reflexive
character by character). -/
theorem matchCI_self (tok rest : Str) : matchCI tok (tok ++ rest) = some rest := by
  induction tok with
  | nil => rfl
  | cons t ts ih =>
    show matchCI (t :: ts) (t :: (ts ++ rest)) = some rest
    simp [matchCI, ih]

/-- Dropping whitespace passes over an all-whitespace prefix. -/
theorem dropWs_ws_append (ws s : Str) (h : ws.all jsWs = true) :
    dropWs (ws ++ s) = dropWs s := by
  induction ws with
  | nil => rfl
  | cons c cw ih =>
    simp only [List.all_cons, Bool.and_eq_true] at h
    show dropWs (c :: (cw ++ s)) = dropWs s
    simp only [dropWs, List.dropWhile_cons, h.1, if_true]
    exact ih h.2

/-- Dropping whitespace leaves a string whose head is not whitespace. -/
theorem dropWs_headNotWs (tok rest : Str) (h : headNotWs tok = true) :
    dropWs (tok ++ rest) = tok ++ rest := by
  cases tok with
  | nil => simp [headNotWs] at h
  | cons c ts =>
    have hc : jsWs c = false := by simpa [headNotWs] using h
    show dropWs (c :: (ts ++ rest)) = c :: (ts ++ rest)
    simp [dropWs, List.dropWhile_cons, hc]

/-- `\s*tok\b` matches a token written after optional whitespace and before
a word boundary, leaving exactly the rest. -/
theorem matchSpTok_self (tok ws rest : Str)
    (htok : headNotWs tok = true) (hrest : headNotWord rest = true)
    (hws : ws.all jsWs = true) :
    matchSpTok tok (ws ++ (tok ++ rest)) = some rest := by
  have hdrop : dropWs (ws ++ (tok ++ rest)) = tok ++ rest := by
    rw [dropWs_ws_append _ _ hws, dropWs_headNotWs _ _ htok]
  unfold matchSpTok
  rw [hdrop, matchCI_self]
  cases rest with
  | nil => rfl
  | cons c cc =>
    have hc : isWordChar c = false := by simpa [headNotWord] using hrest
    simp [hc]

/-- At a doubled separator character, the scan rewrites the matched
`sep sep \s* tok` span to `sep sep ' ' target`, keeping the rest. -/
theorem scanSep_sep_head (tok target s : Str) (sep : Char) (r : Str)
    (hsep : sep = '&' ∨ sep = '|') (hm : matchSpTok tok s = some r) :
    scanSep tok target (sep :: sep :: s)
      = some (sep :: sep :: ' ' :: (target ++ r)) := by
  rcases hsep with h | h <;> subst h <;> simp [scanSep, hm]

/-- The scan passes unchanged over a prefix containing no separator
character, prepending it to whatever rewrite it finds further right. -/
theorem scanSep_append_of_no_sep (tok target pre s out : Str)
    (hpre : pre.all (fun c => !(c == '&') && !(c == '|')) = true)
    (hs : scanSep tok target s = some out) :
    scanSep tok target (pre ++ s) = some (pre ++ out) := by
  induction pre with
  | nil => simpa using hs
  | cons c pre' ih =>
    simp only [List.all_cons, Bool.and_eq_true, Bool.not_eq_true'] at hpre
    cases hps : pre' ++ s with
    | nil =>
      rcases List.append_eq_nil.mp hps with ⟨_, hs0⟩
      rw [hs0] at hs
      simp [scanSep] at hs
    | cons b l =>
      show scanSep tok target (c :: (pre' ++ s)) = some (c :: (pre' ++ out))
      have hrec : scanSep tok target (pre' ++ s) = some (pre' ++ out) := by
        refine ih ?_
        simp only [List.all_eq_true, Bool.and_eq_true, Bool.not_eq_true']
        intro x hx
        have := hpre.2
        simp only [List.all_eq_true, Bool.and_eq_true, Bool.not_eq_true'] at this
        exact this x hx
      rw [hps] at hrec ⊢
      simp [scanSep, hpre.1.1, hpre.1.2, hrec]

/-- Claim C3: in `BlockDangerousOnly` mode, `evaluate` denies exactly when
the full command string contains some blocked entry as a case-insensitive
substring anywhere; `git log && shutdown /s` is denied when `shutdown` is
blocked (and also under the source's own `dangerousPatterns`) although its
base token is the benign `git`, and a command containing no blocked
substring is allowed. -/
theorem blockDangerous_denies_iff_substring :
    (∀ (blocked : List Str) (command : Str),
      (∃ r, evaluateBlockDangerous blocked command = .deny r) ↔
        ∃ p ∈ blocked, lower p <:+: lower command)
    ∧ evaluateBlockDangerous [cs "shutdown"] (cs "git log && shutdown /s")
        = .deny dangerousMsg
    ∧ baseToken (cs "git log && shutdown /s") = cs "git"
    ∧ evaluateBlockDangerous dangerousPatterns (cs "git log && shutdown /s")
        = .deny dangerousMsg
    ∧ evaluateBlockDangerous [cs "shutdown"] (cs "git log") = .allow := by
  refine ⟨?_, by decide, by decide, by decide, by decide⟩
  intro blocked command
  simp only [evaluateBlockDangerous]
  by_cases h :
      (blocked.any fun pattern => jsIncludes (lower command) (lower pattern))
        = true
  · rw [if_pos h]
    simp only [List.any_eq_true, jsIncludes, decide_eq_true_eq] at h
    exact ⟨fun _ => h, fun _ => ⟨dangerousMsg, rfl⟩⟩
  · rw [if_neg h]
    constructor
    · rintro ⟨r, hr⟩
      simp at hr
    · intro hex
      exact absurd (by
        simp only [List.any_eq_true, jsIncludes, decide_eq_true_eq]
        exact hex) h

/-- Claim C2 as stated is false on the code: the source splits the base
token at space characters only, while the claim says "up to the first
whitespace".  For the command `echo<TAB>x` with allowlist `["echo"]`, the
claim's base token is `echo` (which is allowed), yet `validateCommand`
denies the command, because its base token keeps the tab and the `x`. -/
theorem validateCommand_whitespace_counterexample :
    ¬ (((validateCommand [cs "echo"]
          ('e' :: 'c' :: 'h' :: 'o' :: '\t' :: 'x' :: [])).isValid = true) ↔
       (∃ a ∈ [cs "echo"],
          specBaseToken ('e' :: 'c' :: 'h' :: 'o' :: '\t' :: 'x' :: [])
            = lower a)) := by
  decide

/-- Claim C2, amended: in allowlist mode, `evaluate(C)` allows exactly when
the base token of `C` — the substring up to the first SPACE character
(U+0020), lower-cased — equals some entry of the allowlist compared
case-insensitively, regardless of trailing arguments; otherwise it denies
with a reason containing the rejected token. -/
theorem validateCommand_allowlist_iff (allowedCommands : List Str)
    (command : Str) :
    ((validateCommand allowedCommands command).isValid = true ↔
      ∃ a ∈ allowedCommands, baseToken command = lower a)
    ∧ ((validateCommand allowedCommands command).isValid = false →
      baseToken command <:+: (validateCommand allowedCommands command).reason) := by
  by_cases h : ∃ a ∈ allowedCommands, baseToken command = lower a
  · have hb : (allowedCommands.any fun cmd =>
        decide (baseToken command = lower cmd)) = true := by
      simp only [List.any_eq_true, decide_eq_true_eq]
      exact h
    constructor
    · simpa [validateCommand, hb] using h
    · intro hfalse
      simp [validateCommand, hb] at hfalse
  · have hb : (allowedCommands.any fun cmd =>
        decide (baseToken command = lower cmd)) = false := by
      simp only [List.any_eq_false, decide_eq_true_eq, not_exists]
      intro a ha
      exact fun heq => h ⟨a, ha, heq⟩
    constructor
    · constructor
      · intro htrue
        simp [validateCommand, hb] at htrue
      · intro hex
        exact absurd hex h
    · intro _
      refine ⟨cs "Command " ++ [sq], [sq] ++ cs " is not in the allowed list", ?_⟩
      simp [validateCommand, hb, List.append_assoc]

/-- Witness for `validateCommand_allowlist_iff` at the spec's Scenario A:
`echo hello` is allowed under `["echo","dir"]`, and the denial reason for
`del C:` contains its base token `del`. -/
theorem validateCommand_allowlist_iff_witness :
    (validateCommand [cs "echo", cs "dir"] (cs "echo hello")).isValid = true
    ∧ baseToken (cs "del C:") <:+:
        (validateCommand [cs "echo", cs "dir"] (cs "del C:")).reason :=
  ⟨(validateCommand_allowlist_iff [cs "echo", cs "dir"] (cs "echo hello")).1.mpr
      (by decide),
   (validateCommand_allowlist_iff [cs "echo", cs "dir"] (cs "del C:")).2
      (by decide)⟩

/-- Claim C6: translation is idempotent on unchanged commands — when
`translate` leaves a command `Unchanged`, translating the string the stage
hands on (which is the original command) again yields `Unchanged`. -/
theorem translate_unchanged_idempotent (command : Str)
    (h : translate command = .unchanged) :
    translate (translationOutput command) = .unchanged := by
  have hout : translationOutput command = command := by
    unfold translationOutput
    rw [h]
  rw [hout]
  exact h

/-- Witness for `translate_unchanged_idempotent`: `git log` is untouched by
every mapping rule, and translating it twice yields `Unchanged` twice. -/
theorem translate_unchanged_idempotent_witness :
    translate (cs "git log") = .unchanged
    ∧ translate (translationOutput (cs "git log")) = .unchanged :=
  ⟨by decide, translate_unchanged_idempotent (cs "git log") (by decide)⟩

/-- Claim C7 as stated is false on the code: a timed-out command and a
generically failed command with the same underlying error message are
surfaced to the caller as literally identical results — the source reads
only `error.message` and wraps every `execAsync` rejection in the same
`Command execution failed: …` error, so the timeout condition is not a
distinct outcome. -/
theorem timeout_not_distinct_counterexample :
    (ExecOutcome.failed (cs "Command failed: ping host") true ≠
      ExecOutcome.failed (cs "Command failed: ping host") false)
    ∧ executeCommandRun DEFAULT_ALLOWED_COMMANDS (cs "ping host")
        (.failed (cs "Command failed: ping host") true)
      = executeCommandRun DEFAULT_ALLOWED_COMMANDS (cs "ping host")
        (.failed (cs "Command failed: ping host") false) := by
  decide

/-- Claim C7, amended: every `execAsync` failure — spawn failure, non-zero
exit and timeout alike — is reported to the caller as a thrown
`Command execution failed: <underlying message>` error (never as `Success`
and never crashing the server), but as one collapsed failure outcome: the
result is independent of whether the cause was a timeout, so a timed-out
command is not surfaced distinctly from a generic failure. -/
theorem failures_reported_not_crashing (allowedCommands : List Str)
    (command message : Str) (t : Bool)
    (h : (validateCommand allowedCommands command).isValid = true) :
    (executeCommandRun allowedCommands command (.failed message t)).result
      = .error (cs "Command execution failed: " ++ message)
    ∧ executeCommandRun allowedCommands command (.failed message t)
      = executeCommandRun allowedCommands command (.failed message false) := by
  constructor <;> simp [executeCommandRun, h]

/-- Witness for `failures_reported_not_crashing` on a timed-out `ping`. -/
theorem failures_reported_not_crashing_witness :
    (executeCommandRun DEFAULT_ALLOWED_COMMANDS (cs "ping host")
        (.failed (cs "timed out") true)).result
      = .error (cs "Command execution failed: " ++ cs "timed out")
    ∧ executeCommandRun DEFAULT_ALLOWED_COMMANDS (cs "ping host")
        (.failed (cs "timed out") true)
      = executeCommandRun DEFAULT_ALLOWED_COMMANDS (cs "ping host")
        (.failed (cs "timed out") false) :=
  failures_reported_not_crashing DEFAULT_ALLOWED_COMMANDS (cs "ping host")
    (cs "timed out") true (by decide)

/-- Claim C8 as stated is false on the code: on a successful exit with
non-empty stderr the result is indeed still a success, but the captured
stderr is not attached to what the caller receives — the returned value is
the stdout alone (the stderr text appears nowhere in it), and the result is
identical to the one produced with empty stderr. -/
theorem stderr_not_attached_counterexample :
    (executeCommandRun DEFAULT_ALLOWED_COMMANDS (cs "git status")
        (.completed (cs "clean") (cs "warning: boom"))).result
      = .ok (cs "clean")
    ∧ ¬ (cs "warning: boom" <:+: cs "clean")
    ∧ (executeCommandRun DEFAULT_ALLOWED_COMMANDS (cs "git status")
        (.completed (cs "clean") (cs "warning: boom"))).result
      = (executeCommandRun DEFAULT_ALLOWED_COMMANDS (cs "git status")
        (.completed (cs "clean") [])).result := by
  decide

/-- Claim C8, amended: a successful exit always yields a success result —
non-empty stderr never turns the result into a failure — but the stderr is
only logged to the server's own console, not attached to the caller's
result, which carries the stdout alone (or a placeholder when stdout is
empty) and is independent of the stderr. -/
theorem stderr_logged_not_returned (allowedCommands : List Str)
    (command stdout stderr : Str)
    (h : (validateCommand allowedCommands command).isValid = true) :
    (executeCommandRun allowedCommands command (.completed stdout stderr)).result
      = .ok (if stdout = [] then
          cs "Command executed successfully (no output)" else stdout)
    ∧ (executeCommandRun allowedCommands command
        (.completed stdout stderr)).result
      = (executeCommandRun allowedCommands command
        (.completed stdout [])).result
    ∧ (executeCommandRun allowedCommands command
        (.completed stdout stderr)).consoleLog
      = (if stderr = [] then [] else [cs "Command stderr: " ++ stderr]) := by
  refine ⟨?_, ?_, ?_⟩ <;> simp [executeCommandRun, h]

/-- Witness for `stderr_logged_not_returned`: a `git status` run that exits
successfully with a warning on stderr. -/
theorem stderr_logged_not_returned_witness :
    (executeCommandRun DEFAULT_ALLOWED_COMMANDS (cs "git status")
        (.completed (cs "clean") (cs "warning"))).result
      = .ok (if (cs "clean") = ([] : Str) then
          cs "Command executed successfully (no output)" else cs "clean")
    ∧ (executeCommandRun DEFAULT_ALLOWED_COMMANDS (cs "git status")
        (.completed (cs "clean") (cs "warning"))).result
      = (executeCommandRun DEFAULT_ALLOWED_COMMANDS (cs "git status")
        (.completed (cs "clean") [])).result
    ∧ (executeCommandRun DEFAULT_ALLOWED_COMMANDS (cs "git status")
        (.completed (cs "clean") (cs "warning"))).consoleLog
      = (if (cs "warning") = ([] : Str) then [] else
          [cs "Command stderr: " ++ cs "warning"]) :=
  stderr_logged_not_returned DEFAULT_ALLOWED_COMMANDS (cs "git status")
    (cs "clean") (cs "warning") (by decide)

/-- Claim C9: the script body is written to a temporary file whose name is
unique per timestamp (distinct `Date.now()` renderings give distinct
paths), and after `executePowerShell` returns, no file exists at the
temporary path — on every exit path of the body: write failure, successful
completion, non-zero exit / spawn failure, and timeout alike (the `finally`
block unconditionally unlinks it). -/
theorem temp_script_absent_after_run (allowedCommands : List Str)
    (script tmpdir timestamp : Str) (outcome : PSOutcome)
    (fileSystem : FileSystem)
    (h : (validateCommand allowedCommands (cs "powershell")).isValid = true) :
    (∀ entry ∈ (executePowerShellRun allowedCommands script tmpdir timestamp
        outcome fileSystem).fileSystem,
      entry.1 ≠ tempScriptPath tmpdir timestamp)
    ∧ (∀ t2, timestamp ≠ t2 →
        tempScriptPath tmpdir timestamp ≠ tempScriptPath tmpdir t2) := by
  constructor
  · intro entry hmem
    cases outcome <;>
      · simp [executePowerShellRun, h, removeFile, writeFile,
          List.mem_filter] at hmem
        exact hmem.2
  · intro t2 hne heq
    apply hne
    have h1 : (cs "/ps_script_") ++ (timestamp ++ cs ".ps1")
        = (cs "/ps_script_") ++ (t2 ++ cs ".ps1") :=
      List.append_cancel_left heq
    have h2 : timestamp ++ cs ".ps1" = t2 ++ cs ".ps1" :=
      List.append_cancel_left h1
    exact List.append_cancel_right h2

/-- Witness for `temp_script_absent_after_run`: a timed-out script run under
the default allowlist leaves no file at the temporary path, and timestamps
`17` and `18` give distinct paths. -/
theorem temp_script_absent_after_run_witness :
    (∀ entry ∈ (executePowerShellRun DEFAULT_ALLOWED_COMMANDS (cs "Get-Date")
        (cs "/tmp") (cs "17") (.failed (cs "timed out") true) []).fileSystem,
      entry.1 ≠ tempScriptPath (cs "/tmp") (cs "17"))
    ∧ tempScriptPath (cs "/tmp") (cs "17") ≠ tempScriptPath (cs "/tmp") (cs "18") :=
  ⟨(temp_script_absent_after_run DEFAULT_ALLOWED_COMMANDS (cs "Get-Date")
      (cs "/tmp") (cs "17") (.failed (cs "timed out") true) [] (by decide)).1,
   (temp_script_absent_after_run DEFAULT_ALLOWED_COMMANDS (cs "Get-Date")
      (cs "/tmp") (cs "17") (.failed (cs "timed out") true) [] (by decide)).2
     (cs "18") (by decide)⟩

/-- Claim C10: the allowlist decision of `executePowerShell` is independent
of the script content — for a fixed policy, any two scripts (with any
timestamps, outcomes and filesystems) are admitted or denied alike, because
the guard is evaluated on the constant token `powershell` and the script
body is never checked against the lists. -/
theorem powershell_admission_independent_of_script
    (allowedCommands : List Str) (s1 s2 : Str) (tmpdir t1 t2 : Str)
    (o1 o2 : PSOutcome) (fs1 fs2 : FileSystem) :
    ((executePowerShellRun allowedCommands s1 tmpdir t1 o1 fs1).deniedByPolicy
      = (executePowerShellRun allowedCommands s2 tmpdir t2 o2 fs2).deniedByPolicy)
    ∧ (executePowerShellRun allowedCommands s1 tmpdir t1 o1 fs1).deniedByPolicy
      = !(validateCommand allowedCommands (cs "powershell")).isValid := by
  by_cases h : (validateCommand allowedCommands (cs "powershell")).isValid
  · constructor <;>
      · cases o1 <;> cases o2 <;> simp [executePowerShellRun, h]
  · have hf : (validateCommand allowedCommands (cs "powershell")).isValid
        = false := by
      simpa using h
    constructor <;> simp [executePowerShellRun, hf]

/-- Claim C1 as stated is false on the code: the five information
operations spawn their child processes without ever invoking the guard —
their traces contain a `spawned` event with no preceding `validated` event
(under any policy, since they never consult the security manager at all). -/
theorem guard_bypass_counterexample :
    guardedTrace false (getNetworkInfoEvents none) = false
    ∧ getNetworkInfoEvents none = [.spawned (cs "ipconfig")]
    ∧ guardedTrace false (getSystemInfoEvents (cs "full")) = false
    ∧ guardedTrace false (listRunningProcessesEvents none) = false
    ∧ guardedTrace false (getServiceInfoEvents (cs "query") none) = false
    ∧ guardedTrace false (getScheduledTasksEvents (cs "query") none) = false := by
  decide

/-- Claim C1, amended: only `execute_command` and `execute_powershell`
invoke the allowlist guard, and in those two operations every child-process
spawn is preceded by a guard invocation that returned Allow; the five
information operations (`get_system_info`, `get_network_info`,
`list_running_processes`, `get_service_info`, `get_scheduled_tasks`) spawn
fixed, hardcoded commands without consulting the guard at all. -/
theorem guard_precedes_spawn_in_execute_ops :
    (∀ (allowedCommands : List Str) (command : Str),
      guardedTrace false (executeCommandEvents allowedCommands command) = true)
    ∧ (∀ (allowedCommands : List Str) (tmpdir timestamp : Str)
        (outcome : PSOutcome),
      guardedTrace false
        (executePowerShellEvents allowedCommands tmpdir timestamp outcome) = true)
    ∧ (∀ detail, (getSystemInfoEvents detail).all isSpawnEvent = true)
    ∧ (∀ i, (getNetworkInfoEvents i).all isSpawnEvent = true)
    ∧ (∀ f, (listRunningProcessesEvents f).all isSpawnEvent = true)
    ∧ (∀ a n, (getServiceInfoEvents a n).all isSpawnEvent = true)
    ∧ (∀ a n, (getScheduledTasksEvents a n).all isSpawnEvent = true) := by
  refine ⟨?_, ?_, ?_, ?_, ?_, ?_, ?_⟩
  · intro allowedCommands command
    cases hv : (validateCommand allowedCommands command).isValid <;>
      simp [executeCommandEvents, hv, guardedTrace]
  · intro allowedCommands tmpdir timestamp outcome
    cases hv : (validateCommand allowedCommands (cs "powershell")).isValid <;>
      cases outcome <;>
        simp [executePowerShellEvents, hv, guardedTrace]
  · intro detail
    by_cases hd : detail = cs "full" <;>
      simp [getSystemInfoEvents, hd, isSpawnEvent]
  · intro i
    cases i <;> simp [getNetworkInfoEvents, isSpawnEvent]
  · intro f
    cases f <;> simp [listRunningProcessesEvents, isSpawnEvent]
  · intro a n
    by_cases h1 : a = cs "query" <;> by_cases h2 : a = cs "status" <;>
      cases n <;> simp [getServiceInfoEvents, h1, h2, isSpawnEvent]
  · intro a n
    by_cases h1 : a = cs "query" <;> by_cases h2 : a = cs "status" <;>
      cases n <;> simp [getScheduledTasksEvents, h1, h2, isSpawnEvent]

/-- Claim C4 as stated is false on the code: a `null` rule rejects via
`includes`, i.e. whenever its source token occurs anywhere in the command
as a case-insensitive substring.  `git pregame` is rejected by the
`reg -> null` rule although `reg` occurs only inside the argument word
`pregame`, at neither the start of the command nor after a chaining
separator (and `net user` does not occur at all). -/
theorem null_rule_substring_counterexample :
    translate (cs "git pregame") = .rejected (notSupportedMsg (cs "reg"))
    ∧ ruleTokenAtBoundary (cs "reg") (cs "git pregame") = false
    ∧ ruleTokenAtBoundary (cs "net user") (cs "git pregame") = false := by
  decide

/-- Claim C4, amended: a `null` rule rejects exactly when its source token
occurs as a case-insensitive substring anywhere in the command being
scanned (the input after wrapper stripping and the non-null substitutions),
not only at the start or after a command-chaining separator; in particular
`reg query HKLM` is Rejected under the `reg -> null` rule. -/
theorem translate_rejects_iff_null_token_substring (command : Str) :
    ((∃ r, translate command = .rejected r) ↔
      (jsIncludes (lower (applySubsts commandMappings (stripWrappers command)))
          (lower (cs "net user")) = true
       ∨ jsIncludes (lower (applySubsts commandMappings (stripWrappers command)))
          (lower (cs "reg")) = true))
    ∧ translate (cs "reg query HKLM") = .rejected (notSupportedMsg (cs "reg")) := by
  refine ⟨?_, by decide⟩
  have key : applyRules commandMappings (stripWrappers command) =
      (if jsIncludes (lower (applySubsts commandMappings (stripWrappers command)))
          (lower (cs "net user")) then
        Except.error (notSupportedMsg (cs "net user"))
       else if jsIncludes
          (lower (applySubsts commandMappings (stripWrappers command)))
          (lower (cs "reg")) then
        Except.error (notSupportedMsg (cs "reg"))
       else Except.ok (applySubsts commandMappings (stripWrappers command))) :=
    rfl
  unfold translate
  rw [key]
  by_cases h1 : jsIncludes
      (lower (applySubsts commandMappings (stripWrappers command)))
      (lower (cs "net user")) = true
  · rw [if_pos h1]
    exact ⟨fun _ => Or.inl h1, fun _ => ⟨notSupportedMsg (cs "net user"), rfl⟩⟩
  · rw [if_neg h1]
    by_cases h2 : jsIncludes
        (lower (applySubsts commandMappings (stripWrappers command)))
        (lower (cs "reg")) = true
    · rw [if_pos h2]
      exact ⟨fun _ => Or.inr h2, fun _ => ⟨notSupportedMsg (cs "reg"), rfl⟩⟩
    · rw [if_neg h2]
      constructor
      · rintro ⟨r, hr⟩
        by_cases h3 : applySubsts commandMappings (stripWrappers command)
            = command <;>
          simp [h3] at hr
      · rintro (hh | hh)
        · exact absurd hh h1
        · exact absurd hh h2

/-- Witness for `translate_rejects_iff_null_token_substring`: the spec's
Scenario C rejection input `reg query HKLM` is rejected because `reg`
occurs in it as a substring. -/
theorem translate_rejects_iff_null_token_substring_witness :
    ∃ r, translate (cs "reg query HKLM") = .rejected r :=
  (translate_rejects_iff_null_token_substring (cs "reg query HKLM")).1.mpr
    (Or.inr (by decide))

/-- Claim C5 as stated is false on the code: the replacement template is
`"$1 " + target`, and at the start of the string the separator group `$1`
is empty, so the substituted command begins with the template's space —
`dir /b` translates to `" ls -la /b"` (with a leading space), not to
`"ls -la /b"` exactly. -/
theorem dir_substitution_leading_space_counterexample :
    translate (cs "dir /b") ≠ .translated (cs "ls -la /b")
    ∧ translate (cs "dir /b") = .translated (' ' :: cs "ls -la /b") := by
  decide

/-- Claim C5, amended: for every translation rule with a non-null target
(arbitrary `tok -> target`), when the source token matches at the start of
the command (after the pattern's optional whitespace) or immediately after
a doubled command-chaining separator (`&&` or `||`, again with optional
whitespace, and no earlier match), the substitution rewrites the token in
place, leaving the prefix and the rest of the command intact but inserting
the replacement template's space before the target; in particular `dir /b`
yields `Translated " ls -la /b"` (leading space, not `"ls -la /b"`
exactly), and `git log && dir /b` yields
`Translated "git log && ls -la /b"`. -/
theorem nonnull_rule_substitutes_in_place
    (tok target pre ws rest : Str) (sep : Char)
    (htok : headNotWs tok = true)
    (hrest : headNotWord rest = true)
    (hws : ws.all jsWs = true)
    (hsep : sep = '&' ∨ sep = '|')
    (hpre : pre.all (fun c => !(c == '&') && !(c == '|')) = true)
    (hstart : matchSpTok tok (pre ++ sep :: sep :: (ws ++ (tok ++ rest)))
      = none) :
    replaceRule tok target (ws ++ (tok ++ rest))
      = some (' ' :: (target ++ rest))
    ∧ replaceRule tok target (pre ++ sep :: sep :: (ws ++ (tok ++ rest)))
      = some (pre ++ sep :: sep :: ' ' :: (target ++ rest))
    ∧ translate (cs "dir /b") = .translated (' ' :: cs "ls -la /b")
    ∧ translate (cs "git log && dir /b")
      = .translated (cs "git log && ls -la /b") := by
  refine ⟨?_, ?_, by decide, by decide⟩
  · unfold replaceRule
    rw [matchSpTok_self tok ws rest htok hrest hws]
  · unfold replaceRule
    rw [hstart]
    show scanSep tok target (pre ++ sep :: sep :: (ws ++ (tok ++ rest)))
      = some (pre ++ sep :: sep :: ' ' :: (target ++ rest))
    exact scanSep_append_of_no_sep tok target pre _ _ hpre
      (scanSep_sep_head tok target (ws ++ (tok ++ rest)) sep rest hsep
        (matchSpTok_self tok ws rest htok hrest hws))

/-- Witness for `nonnull_rule_substitutes_in_place`: the rule
`dir -> ls -la` matched after the leading whitespace of `" dir /b"` and
after the separator of `"git log && dir /b"`. -/
theorem nonnull_rule_substitutes_in_place_witness :
    replaceRule (cs "dir") (cs "ls -la") (cs " " ++ (cs "dir" ++ cs " /b"))
      = some (' ' :: (cs "ls -la" ++ cs " /b"))
    ∧ replaceRule (cs "dir") (cs "ls -la")
        (cs "git log " ++ '&' :: '&' :: (cs " " ++ (cs "dir" ++ cs " /b")))
      = some (cs "git log " ++ '&' :: '&' :: ' ' :: (cs "ls -la" ++ cs " /b"))
    ∧ translate (cs "dir /b") = .translated (' ' :: cs "ls -la /b")
    ∧ translate (cs "git log && dir /b")
      = .translated (cs "git log && ls -la /b") :=
  nonnull_rule_substitutes_in_place (cs "dir") (cs "ls -la") (cs "git log ")
    (cs " ") (cs " /b") '&' (by decide) (by decide) (by decide) (Or.inl rfl)
    (by decide) (by decide)

end WinCmd
